import Mathlib

/-!
Verification of the Playtune bytestream decoder of `miditones_scroll.c`
(V1.10).  The decoder is embedded shallowly: the global state mutated by
`main`'s command loop becomes an explicit `State` record, the command loop
becomes a fuel-indexed recursion (`decodeLoop`) whose fuel `buflen + 1`
always suffices because the cursor advances by at least one byte per
iteration, and the optional `Pt` file-header check becomes `headerResult`.
Bytes are `Nat` in 0..255; the C `int` value SILENT (-1) is kept as an `Int`.
Reads past the end of the loaded file (the C code performs no bounds check;
it malloc's one extra byte) are served by an explicit oracle `ext` and every
byte index the decode loop reads is recorded in `State.reads`.
-/

namespace Miditones

/-- The "silent note" code: `#define SILENT -1`. -/
def SILENT : Int := -1

/-- One output line of `print_status`: the snapshot of decoder state taken
at a delay boundary (and once at the end of the pass). -/
structure Snapshot where
  timenow : Nat
  delay : Nat
  notes : List Int
  warning : Bool
  rangeLo : Int
  rangeHi : Int
  deriving DecidableEq, Repr

/-- The global mutable state of `miditones_scroll.c`'s decode loop. -/
structure State where
  genNote : List Int                 -- gen_note[16], SILENT = -1
  genVolume : List Nat               -- gen_volume[16]
  genInstrument : List Nat           -- gen_instrument[16]
  genInstrumentChanged : List Bool   -- gen_instrument_changed[16]
  genDidStopnote : List Bool         -- gen_did_stopnote[16]
  instrumentCount : List Nat         -- instrument_count[128]
  maxTonegenFound : Nat              -- max_tonegen_found
  notesSkipped : Nat                 -- notes_skipped
  stopnotesBeforeStartnote : Nat     -- stopnotes_before_startnote
  consecutiveDelays : Nat            -- consecutive_delays
  warning : Bool                     -- warning
  timenow : Nat                      -- timenow
  delay : Nat                        -- delay
  tonegensUsed : Nat                 -- tonegens_used (bitmap)
  gotcommand : Bool                  -- gotcommand
  gotInstruments : Bool              -- got_instruments
  maxVol : Nat                       -- max_vol
  minVol : Nat                       -- min_vol
  errors : List (String × Nat)       -- file_error calls: (message, byte offset)
  snapshots : List Snapshot          -- print_status output lines, in order
  reads : List Nat                   -- byte indices read by the decode loop
  lastbufptr : Int                   -- lastbufptr - buffer
  deriving DecidableEq, Repr

/-- Read the byte at index `i`: from the buffer when in range, otherwise
from the oracle `ext` that stands for whatever memory follows the buffer
(the C code reads it without any bounds check). -/
def readByte (buf : List Nat) (ext : Nat → Nat) (i : Nat) : Nat :=
  if h : i < buf.length then buf.get ⟨i, h⟩ else ext (i - buf.length)

/-- Record that the decode loop read buffer index `i`. -/
def rd (i : Nat) (st : State) : State :=
  { st with reads := st.reads ++ [i] }

/-- The clearing loop inside `print_status`:
`for (gen = 0; gen < n; ++gen) gen_instrument_changed[gen] = false;`. -/
def clearFirst : Nat → List Bool → List Bool
  | _, [] => []
  | 0, l => l
  | n+1, _ :: t => false :: clearFirst n t

/-- The body of `print_status()`: emit a snapshot of the current state, clear the
per-generator instrument-changed flags for the `n` displayed generators,
reset the warning flag, and set `lastbufptr = bufptr + 1`.  `p` is the
current `bufptr - buffer` (an `Int`: the final cleanup can move it to -1). -/
def printStatus (n : Nat) (p : Int) (st : State) : State :=
  let snap : Snapshot :=
    { timenow := st.timenow, delay := st.delay, notes := st.genNote,
      warning := st.warning, rangeLo := st.lastbufptr, rangeHi := p }
  { st with
    genInstrumentChanged := clearFirst n st.genInstrumentChanged,
            warning := false,
            snapshots := st.snapshots ++ [snap],
            lastbufptr := p + 1 }

/-- Result of processing one command byte: continue at the next cursor
position, or abort the whole pass (`exit(8)` on an unknown command). -/
inductive StepResult where
  | next (st : State) (i : Nat)
  | fatal (st : State)
  deriving DecidableEq, Repr

/-- The delay branch (`cmd < 0x80`): bump `consecutive_delays` when no
note/instrument command intervened, read the low byte, emit a snapshot,
advance the clock, and clear every generator's just-stopped flag. -/
def delayStep (n : Nat) (buf : List Nat) (ext : Nat → Nat) (i : Nat)
    (st0 : State) : State :=
  let st1 := if st0.gotcommand then st0 else
    { st0 with consecutiveDelays := st0.consecutiveDelays + 1, warning := true }
  let st2 := { st1 with gotcommand := false }
  let st3 := rd (i+1) st2
  let d := readByte buf ext i * 256 + readByte buf ext (i+1)
  let st4 := printStatus n ((i : Int) + 1) { st3 with delay := d }
  { st4 with
    timenow := st4.timenow + d,
    genDidStopnote := List.replicate 16 false }

/-- The statements shared by every non-delay command branch:
`gotcommand = true; gen = cmd & 0x0f; if (gen > max_tonegen_found) ...`. -/
def cmdStart (g : Nat) (st0 : State) : State :=
  { st0 with
    gotcommand := true,
    maxTonegenFound := if g > st0.maxTonegenFound then g else st0.maxTonegenFound }

/-- The note-on branch (`opcode 0x90`): read the note number (and the
volume when `ev`), returning the new state and the next cursor position. -/
def noteOnStep (n : Nat) (ev : Bool) (buf : List Nat) (ext : Nat → Nat)
    (i g : Nat) (st1 : State) : State × Nat :=
  let st2 := rd (i+1) st1
  let note := readByte buf ext (i+1)
  let instr := st2.genInstrument.getD g 0
  let st3 := { st2 with
    genNote := st2.genNote.set g (note : Int),
    tonegensUsed := st2.tonegensUsed ||| (1 <<< g),
    instrumentCount := st2.instrumentCount.set instr
      (st2.instrumentCount.getD instr 0 + 1) }
  let st4 := if st3.genDidStopnote.getD g false then
      { st3 with
        stopnotesBeforeStartnote := st3.stopnotesBeforeStartnote + 1,
        warning := true }
    else st3
  let r := if ev then
      let st5 := rd (i+2) st4
      let v := readByte buf ext (i+2)
      let st6 := { st5 with
        genVolume := st5.genVolume.set g v,
        maxVol := if v > st5.maxVol then v else st5.maxVol,
        minVol := if v < st5.minVol then v else st5.minVol }
      (st6, i+3)
    else (st4, i+2)
  if g ≥ n then ({ r.1 with notesSkipped := r.1.notesSkipped + 1 }, r.2) else r

/-- The note-off branch (`opcode 0x80`): `file_error` (which records the
error but does not abort in V1.10) when the generator is silent, then
silence it and set its just-stopped flag.  No operand bytes. -/
def noteOffStep (i g : Nat) (st1 : State) : State :=
  let st2 := if st1.genNote.getD g 0 = SILENT then
      { st1 with errors := st1.errors ++ [("tone generator not on", i)] }
    else st1
  { st2 with
    genNote := st2.genNote.set g SILENT,
    genDidStopnote := st2.genDidStopnote.set g true }

/-- The change-instrument branch (`opcode 0xC0`): read one operand byte,
masked to 0..127. -/
def instrStep (buf : List Nat) (ext : Nat → Nat) (i g : Nat)
    (st1 : State) : State :=
  let st2 := rd (i+1) st1
  let instr := readByte buf ext (i+1) &&& 0x7F
  { st2 with
    gotInstruments := true,
    genInstrument := st2.genInstrument.set g instr,
    genInstrumentChanged := st2.genInstrumentChanged.set g true }

/-- One iteration of the command loop of `main` (V1.10), starting at the
command byte at index `i`.  `n` is `num_tonegens`, `ev` is `expect_volume`. -/
def execCmd (n : Nat) (ev : Bool) (buf : List Nat) (ext : Nat → Nat)
    (i : Nat) (st : State) : StepResult :=
  let st0 := rd i st
  let cmd := readByte buf ext i
  if cmd < 0x80 then
    .next (delayStep n buf ext i st0) (i+2)
  else if cmd = 0xF0 then
    -- end-of-score byte: excluded from the command branch, loop continues
    .next st0 (i+1)
  else if cmd = 0xE0 then
    -- repeat byte: excluded from the command branch, loop continues
    .next st0 (i+1)
  else
    let g := cmd &&& 0x0F
    let st1 := cmdStart g st0
    let op := cmd &&& 0xF0
    if op = 0x90 then
      let r := noteOnStep n ev buf ext i g st1
      .next r.1 r.2
    else if op = 0x80 then
      .next (noteOffStep i g st1) (i+1)
    else if op = 0xC0 then
      .next (instrStep buf ext i g st1) (i+2)
    else
      -- unknown command: file_error then exit(8)
      .fatal { st1 with errors := st1.errors ++ [("unknown command", i)] }

/-- The final cleanup after the loop: `delay = 0; --bufptr; print_status();`
(modelling the text-output mode, `codeoutput == false`). -/
def finalStatus (n : Nat) (i : Nat) (st : State) : State :=
  printStatus n ((i : Int) - 1) { st with delay := 0 }

/-- Result of the whole pass: completed normally, or aborted by `exit(8)`. -/
inductive DecodeResult where
  | ok (st : State)
  | fatal (st : State)
  deriving DecidableEq, Repr

/-- The state carried by a result, whichever way the pass ended. -/
def stateOf : DecodeResult → State
  | .ok st => st
  | .fatal st => st

/-- Whether the pass completed without `exit(8)`. -/
def isOk : DecodeResult → Bool
  | .ok _ => true
  | .fatal _ => false

/-- The command loop `for (; bufptr < buffer + buflen; ++bufptr)` as a
fuel-indexed recursion.  The fuel case 0 behaves exactly like loop exit;
`decodeFile` supplies fuel `buflen + 1`, which is never exhausted before
the cursor reaches the end because every iteration advances it. -/
def decodeLoop (n : Nat) (ev : Bool) (buf : List Nat) (ext : Nat → Nat) :
    Nat → Nat → State → DecodeResult
  | 0, i, st => .ok (finalStatus n i st)
  | fuel+1, i, st =>
    if i < buf.length then
      match execCmd n ev buf ext i st with
      | .next st' i' => decodeLoop n ev buf ext fuel i' st'
      | .fatal st' => .fatal st'
    else .ok (finalStatus n i st)

/-- Caller-supplied configuration: the `-v` flag default for
`expect_volume` and the `-tn` display count `num_tonegens` (default 6). -/
structure Config where
  expectVolume : Bool
  numTonegens : Nat
  deriving DecidableEq, Repr

/-- The optional self-describing file header check of `main`:
`if (buflen > sizeof (struct file_hdr_t) && hdrptr->id1 == 'P' && hdrptr->id2 == 't')`.
Returns the offset where the command stream begins and the effective
`expect_volume` flag. -/
def headerResult (cfg : Config) (buf : List Nat) : Nat × Bool :=
  if 6 < buf.length ∧ buf.getD 0 0 = 80 ∧ buf.getD 1 0 = 116 then
    (buf.getD 2 0, decide (buf.getD 3 0 &&& 0x80 ≠ 0))
  else (0, cfg.expectVolume)

/-- The initial global state: `gen_note[gen] = SILENT` for the first
`num_tonegens` generators only (the rest keep the C static initializer 0),
`gotcommand = true`, `min_vol = 255`, everything else zero/false/empty. -/
def initState (n : Nat) (start : Nat) : State :=
  { genNote := (List.range 16).map (fun g => if g < n then SILENT else 0),
    genVolume := List.replicate 16 0,
    genInstrument := List.replicate 16 0,
    genInstrumentChanged := List.replicate 16 false,
    genDidStopnote := List.replicate 16 false,
    instrumentCount := List.replicate 128 0,
    maxTonegenFound := 0, notesSkipped := 0, stopnotesBeforeStartnote := 0,
    consecutiveDelays := 0, warning := false, timenow := 0, delay := 0,
    tonegensUsed := 0, gotcommand := true, gotInstruments := false,
    maxVol := 0, minVol := 255, errors := [], snapshots := [], reads := [],
    lastbufptr := (start : Int) }

/-- The whole decode pass of `main`: header check, then the command loop
from the resulting start offset, then the final cleanup. -/
def decodeFile (cfg : Config) (buf : List Nat) (ext : Nat → Nat) : DecodeResult :=
  let h := headerResult cfg buf
  decodeLoop cfg.numTonegens h.2 buf ext (buf.length + 1) h.1
    (initState cfg.numTonegens h.1)

/-- The default configuration: no `-v`, 6 displayed generators. -/
def defaultConfig : Config := { expectVolume := false, numTonegens := 6 }

/-- The oracle that returns 0 for every byte beyond the buffer. -/
def ext0 : Nat → Nat := fun _ => 0

/-- Sum of the `delay` fields of a snapshot list. -/
def snapDelaySum (l : List Snapshot) : Nat := (l.map Snapshot.delay).sum

/-- The state carried by a step result, whichever constructor occurred. -/
def stepState : StepResult → State
  | .next st _ => st
  | .fatal st => st

/-! ### Basic lemmas about the helper functions -/

lemma snapDelaySum_append (l : List Snapshot) (s : Snapshot) :
    snapDelaySum (l ++ [s]) = snapDelaySum l + s.delay := by
  simp [snapDelaySum]

lemma getLast?_append_single {α : Type} (l : List α) (a : α) :
    (l ++ [a]).getLast? = some a :=
  List.getLast?_concat l

lemma getD_set_self {α : Type} (l : List α) (g : Nat) (a d : α) (h : g < l.length) :
    (l.set g a).getD g d = a := by
  induction l generalizing g with
  | nil => simp at h
  | cons b t ih =>
    cases g with
    | zero => rfl
    | succ g => exact ih g (by simpa using h)

/-- Everything `delayStep` does to the state, as one statement. -/
lemma delayStep_spec (n : Nat) (buf : List Nat) (ext : Nat → Nat) (i : Nat)
    (st : State) :
    ∃ s : Snapshot,
      (delayStep n buf ext i st).snapshots = st.snapshots ++ [s] ∧
      s.timenow = st.timenow ∧
      s.delay = readByte buf ext i * 256 + readByte buf ext (i+1) ∧
      s.warning = (st.warning || !st.gotcommand) ∧
      (delayStep n buf ext i st).timenow =
        st.timenow + (readByte buf ext i * 256 + readByte buf ext (i+1)) ∧
      (delayStep n buf ext i st).consecutiveDelays =
        st.consecutiveDelays + (if st.gotcommand then 0 else 1) ∧
      (delayStep n buf ext i st).gotcommand = false ∧
      (delayStep n buf ext i st).genDidStopnote = List.replicate 16 false ∧
      (delayStep n buf ext i st).maxTonegenFound = st.maxTonegenFound ∧
      (delayStep n buf ext i st).errors = st.errors ∧
      (delayStep n buf ext i st).reads = st.reads ++ [i+1] := by
  by_cases hg : st.gotcommand
  · exact ⟨{ timenow := st.timenow,
             delay := readByte buf ext i * 256 + readByte buf ext (i+1),
             notes := st.genNote, warning := st.warning,
             rangeLo := st.lastbufptr, rangeHi := (i : Int) + 1 },
           by simp [delayStep, printStatus, rd, hg]⟩
  · exact ⟨{ timenow := st.timenow,
             delay := readByte buf ext i * 256 + readByte buf ext (i+1),
             notes := st.genNote, warning := true,
             rangeLo := st.lastbufptr, rangeHi := (i : Int) + 1 },
           by simp [delayStep, printStatus, rd, hg]⟩

/-- The fields `noteOnStep` leaves alone, its stop-note counting, and the
cursor positions it can move to. -/
lemma noteOnStep_spec (n : Nat) (ev : Bool) (buf : List Nat) (ext : Nat → Nat)
    (i g : Nat) (st : State) :
    ((noteOnStep n ev buf ext i g st).1).timenow = st.timenow ∧
    ((noteOnStep n ev buf ext i g st).1).snapshots = st.snapshots ∧
    ((noteOnStep n ev buf ext i g st).1).maxTonegenFound = st.maxTonegenFound ∧
    ((noteOnStep n ev buf ext i g st).1).errors = st.errors ∧
    ((noteOnStep n ev buf ext i g st).1).gotcommand = st.gotcommand ∧
    ((noteOnStep n ev buf ext i g st).1).stopnotesBeforeStartnote =
      st.stopnotesBeforeStartnote + (if st.genDidStopnote.getD g false then 1 else 0) ∧
    ((noteOnStep n ev buf ext i g st).1).reads =
      st.reads ++ [i+1] ++ (if ev then [i+2] else []) ∧
    (noteOnStep n ev buf ext i g st).2 = (if ev then i+3 else i+2) := by
  simp only [noteOnStep, rd]
  split_ifs <;> simp_all

/-- The fields `noteOffStep` leaves alone and the updates it makes;
the error list grows exactly when the generator was silent. -/
lemma noteOffStep_spec (i g : Nat) (st : State) :
    (noteOffStep i g st).timenow = st.timenow ∧
    (noteOffStep i g st).snapshots = st.snapshots ∧
    (noteOffStep i g st).maxTonegenFound = st.maxTonegenFound ∧
    (noteOffStep i g st).gotcommand = st.gotcommand ∧
    (noteOffStep i g st).reads = st.reads ∧
    (noteOffStep i g st).stopnotesBeforeStartnote = st.stopnotesBeforeStartnote ∧
    (noteOffStep i g st).errors = st.errors ++
      (if st.genNote.getD g 0 = SILENT then [("tone generator not on", i)] else []) ∧
    (noteOffStep i g st).genNote = st.genNote.set g SILENT ∧
    (noteOffStep i g st).genDidStopnote = st.genDidStopnote.set g true := by
  simp only [noteOffStep]
  split_ifs <;> simp_all

/-- The fields `instrStep` leaves alone and the reads it makes. -/
lemma instrStep_spec (buf : List Nat) (ext : Nat → Nat) (i g : Nat) (st : State) :
    (instrStep buf ext i g st).timenow = st.timenow ∧
    (instrStep buf ext i g st).snapshots = st.snapshots ∧
    (instrStep buf ext i g st).maxTonegenFound = st.maxTonegenFound ∧
    (instrStep buf ext i g st).errors = st.errors ∧
    (instrStep buf ext i g st).gotcommand = st.gotcommand ∧
    (instrStep buf ext i g st).stopnotesBeforeStartnote = st.stopnotesBeforeStartnote ∧
    (instrStep buf ext i g st).reads = st.reads ++ [i+1] := by
  simp [instrStep, rd]

/-- What `finalStatus` (the post-loop `delay = 0; --bufptr; print_status()`)
does to the state. -/
lemma finalStatus_spec (n i : Nat) (st : State) :
    ∃ s : Snapshot,
      (finalStatus n i st).snapshots = st.snapshots ++ [s] ∧
      s.timenow = st.timenow ∧ s.delay = 0 ∧
      (finalStatus n i st).timenow = st.timenow ∧
      (finalStatus n i st).maxTonegenFound = st.maxTonegenFound ∧
      (finalStatus n i st).reads = st.reads := by
  exact ⟨{ timenow := st.timenow, delay := 0, notes := st.genNote,
           warning := st.warning, rangeLo := st.lastbufptr,
           rangeHi := (i : Int) - 1 },
         by simp [finalStatus, printStatus]⟩

/-- Exhaustive case analysis of one loop iteration: a command byte is
processed by exactly one of the six branches of the dispatch. -/
lemma execCmd_eq_cases (n : Nat) (ev : Bool) (buf : List Nat) (ext : Nat → Nat)
    (i : Nat) (st : State) :
    execCmd n ev buf ext i st = .next (delayStep n buf ext i (rd i st)) (i+2) ∨
    execCmd n ev buf ext i st = .next (rd i st) (i+1) ∨
    (∃ g, g = readByte buf ext i &&& 0x0F ∧
      (execCmd n ev buf ext i st =
          .next ((noteOnStep n ev buf ext i g (cmdStart g (rd i st))).1)
                ((noteOnStep n ev buf ext i g (cmdStart g (rd i st))).2) ∨
       execCmd n ev buf ext i st =
          .next (noteOffStep i g (cmdStart g (rd i st))) (i+1) ∨
       execCmd n ev buf ext i st =
          .next (instrStep buf ext i g (cmdStart g (rd i st))) (i+2) ∨
       execCmd n ev buf ext i st =
          .fatal { cmdStart g (rd i st) with
                   errors := (cmdStart g (rd i st)).errors ++ [("unknown command", i)] })) := by
  simp only [execCmd]
  split_ifs
  · exact Or.inl rfl
  · exact Or.inr (Or.inl rfl)
  · exact Or.inr (Or.inl rfl)
  · exact Or.inr (Or.inr ⟨_, rfl, Or.inl rfl⟩)
  · exact Or.inr (Or.inr ⟨_, rfl, Or.inr (Or.inl rfl)⟩)
  · exact Or.inr (Or.inr ⟨_, rfl, Or.inr (Or.inr (Or.inl rfl))⟩)
  · exact Or.inr (Or.inr ⟨_, rfl, Or.inr (Or.inr (Or.inr rfl))⟩)

/-- One iteration preserves the clock invariant: the accumulated time
equals the sum of the delays of the snapshots emitted so far. -/
lemma stepState_timenow_inv (n : Nat) (ev : Bool) (buf : List Nat)
    (ext : Nat → Nat) (i : Nat) (st : State)
    (h : st.timenow = snapDelaySum st.snapshots) :
    (stepState (execCmd n ev buf ext i st)).timenow =
      snapDelaySum ((stepState (execCmd n ev buf ext i st)).snapshots) := by
  rcases execCmd_eq_cases n ev buf ext i st with h1 | h1 | ⟨g, _, h1 | h1 | h1 | h1⟩ <;>
    rw [h1] <;> simp only [stepState]
  · obtain ⟨s, hsnap, hst, hsd, _, htime, _⟩ := delayStep_spec n buf ext i (rd i st)
    rw [htime, hsnap, snapDelaySum_append, hsd]
    show st.timenow + _ = snapDelaySum st.snapshots + _
    rw [h]
  · exact h
  · obtain ⟨ht, hs, _⟩ := noteOnStep_spec n ev buf ext i g (cmdStart g (rd i st))
    rw [ht, hs]; exact h
  · obtain ⟨ht, hs, _⟩ := noteOffStep_spec i g (cmdStart g (rd i st))
    rw [ht, hs]; exact h
  · obtain ⟨ht, hs, _⟩ := instrStep_spec buf ext i g (cmdStart g (rd i st))
    rw [ht, hs]; exact h
  · exact h

/-- One iteration never lowers `max_tonegen_found`. -/
lemma stepState_max_le (n : Nat) (ev : Bool) (buf : List Nat)
    (ext : Nat → Nat) (i : Nat) (st : State) :
    st.maxTonegenFound ≤ (stepState (execCmd n ev buf ext i st)).maxTonegenFound := by
  rcases execCmd_eq_cases n ev buf ext i st with h1 | h1 | ⟨g, _, h1 | h1 | h1 | h1⟩ <;>
    rw [h1] <;> simp only [stepState]
  · obtain ⟨s, _, _, _, _, _, _, _, _, hmax, _⟩ := delayStep_spec n buf ext i (rd i st)
    rw [hmax]
    exact Nat.le_refl _
  · exact Nat.le_refl _
  · obtain ⟨_, _, hmax, _⟩ := noteOnStep_spec n ev buf ext i g (cmdStart g (rd i st))
    rw [hmax]; simp only [cmdStart, rd]; split <;> omega
  · obtain ⟨_, _, hmax, _⟩ := noteOffStep_spec i g (cmdStart g (rd i st))
    rw [hmax]; simp only [cmdStart, rd]; split <;> omega
  · obtain ⟨_, _, hmax, _⟩ := instrStep_spec buf ext i g (cmdStart g (rd i st))
    rw [hmax]; simp only [cmdStart, rd]; split <;> omega
  · simp only [cmdStart, rd]; split <;> omega

/-- Every byte index an iteration reads is the command byte's index or one
of the following two. -/
lemma stepState_reads_sub (n : Nat) (ev : Bool) (buf : List Nat)
    (ext : Nat → Nat) (i : Nat) (st : State) :
    ∀ r ∈ (stepState (execCmd n ev buf ext i st)).reads,
      r ∈ st.reads ∨ r = i ∨ r = i + 1 ∨ r = i + 2 := by
  rcases execCmd_eq_cases n ev buf ext i st with h1 | h1 | ⟨g, _, h1 | h1 | h1 | h1⟩ <;>
    rw [h1] <;> simp only [stepState] <;> intro r hr
  · obtain ⟨s, _, _, _, _, _, _, _, _, _, _, hreads⟩ := delayStep_spec n buf ext i (rd i st)
    rw [hreads] at hr
    simp only [rd, List.mem_append, List.mem_singleton] at hr
    tauto
  · simp only [rd, List.mem_append, List.mem_singleton] at hr
    tauto
  · obtain ⟨_, _, _, _, _, _, hreads, _⟩ := noteOnStep_spec n ev buf ext i g (cmdStart g (rd i st))
    rw [hreads] at hr
    simp only [cmdStart, rd, List.mem_append, List.mem_singleton] at hr
    rcases hr with (hr | hr) | hr
    · tauto
    · tauto
    · split_ifs at hr <;> simp at hr <;> tauto
  · obtain ⟨_, _, _, _, hreads, _⟩ := noteOffStep_spec i g (cmdStart g (rd i st))
    rw [hreads] at hr
    simp only [cmdStart, rd, List.mem_append, List.mem_singleton] at hr
    tauto
  · obtain ⟨_, _, _, _, _, _, hreads⟩ := instrStep_spec buf ext i g (cmdStart g (rd i st))
    rw [hreads] at hr
    simp only [cmdStart, rd, List.mem_append, List.mem_singleton] at hr
    tauto
  · simp only [cmdStart, rd, List.mem_append, List.mem_singleton] at hr
    tauto

/-- Entry lemma for the delay branch. -/
lemma execCmd_delay_eq (n : Nat) (ev : Bool) (buf : List Nat) (ext : Nat → Nat)
    (i : Nat) (st : State) (hb : readByte buf ext i < 0x80) :
    execCmd n ev buf ext i st = .next (delayStep n buf ext i (rd i st)) (i+2) := by
  simp only [execCmd]
  rw [if_pos hb]

/-- Entry lemma for the end-of-score byte: the iteration only records the
read and moves the cursor one byte forward. -/
lemma execCmd_f0_eq (n : Nat) (ev : Bool) (buf : List Nat) (ext : Nat → Nat)
    (i : Nat) (st : State) (hb : readByte buf ext i = 0xF0) :
    execCmd n ev buf ext i st = .next (rd i st) (i+1) := by
  simp [execCmd, hb]

/-- Entry lemma for the repeat byte: the iteration only records the read
and moves the cursor one byte forward. -/
lemma execCmd_e0_eq (n : Nat) (ev : Bool) (buf : List Nat) (ext : Nat → Nat)
    (i : Nat) (st : State) (hb : readByte buf ext i = 0xE0) :
    execCmd n ev buf ext i st = .next (rd i st) (i+1) := by
  simp [execCmd, hb]

/-- Entry lemma for the note-on branch. -/
lemma execCmd_noteOn_eq (n : Nat) (ev : Bool) (buf : List Nat) (ext : Nat → Nat)
    (i : Nat) (st : State) (hb0 : ¬ readByte buf ext i < 0x80)
    (hbf : readByte buf ext i ≠ 0xF0) (hbe : readByte buf ext i ≠ 0xE0)
    (hop : readByte buf ext i &&& 0xF0 = 0x90) :
    execCmd n ev buf ext i st =
      .next ((noteOnStep n ev buf ext i (readByte buf ext i &&& 0x0F)
                (cmdStart (readByte buf ext i &&& 0x0F) (rd i st))).1)
            ((noteOnStep n ev buf ext i (readByte buf ext i &&& 0x0F)
                (cmdStart (readByte buf ext i &&& 0x0F) (rd i st))).2) := by
  simp only [execCmd]
  rw [if_neg hb0, if_neg hbf, if_neg hbe, if_pos hop]

/-- Entry lemma for the note-off branch. -/
lemma execCmd_noteOff_eq (n : Nat) (ev : Bool) (buf : List Nat) (ext : Nat → Nat)
    (i : Nat) (st : State) (hb0 : ¬ readByte buf ext i < 0x80)
    (hbf : readByte buf ext i ≠ 0xF0) (hbe : readByte buf ext i ≠ 0xE0)
    (hop : readByte buf ext i &&& 0xF0 = 0x80) :
    execCmd n ev buf ext i st =
      .next (noteOffStep i (readByte buf ext i &&& 0x0F)
              (cmdStart (readByte buf ext i &&& 0x0F) (rd i st))) (i+1) := by
  simp only [execCmd]
  rw [if_neg hb0, if_neg hbf, if_neg hbe,
      if_neg (show ¬ readByte buf ext i &&& 0xF0 = 0x90 by rw [hop]; decide),
      if_pos hop]

/-- Exit-of-loop lemma for the clock invariant. -/
lemma finalStatus_ok_sum (n i : Nat) (st : State)
    (hinv : st.timenow = snapDelaySum st.snapshots) :
    ∃ s, (finalStatus n i st).snapshots.getLast? = some s ∧
      snapDelaySum (finalStatus n i st).snapshots = s.timenow ∧ s.delay = 0 := by
  obtain ⟨s, hsnap, hst, hsd, _⟩ := finalStatus_spec n i st
  refine ⟨s, ?_, ?_, hsd⟩
  · rw [hsnap]
    exact getLast?_append_single _ _
  · rw [hsnap, snapDelaySum_append, hsd, hst, hinv]
    exact Nat.add_zero _

/-- When the loop completes normally, the last snapshot exists, carries
delay 0, and its clock equals the sum of all snapshot delays. -/
lemma decodeLoop_ok_sum (n : Nat) (ev : Bool) (buf : List Nat) (ext : Nat → Nat) :
    ∀ (fuel i : Nat) (st : State),
      st.timenow = snapDelaySum st.snapshots →
      ∀ st2, decodeLoop n ev buf ext fuel i st = .ok st2 →
        ∃ s, st2.snapshots.getLast? = some s ∧
          snapDelaySum st2.snapshots = s.timenow ∧ s.delay = 0 := by
  intro fuel
  induction fuel with
  | zero =>
    intro i st hinv st2 hok
    simp only [decodeLoop] at hok
    injection hok with h
    subst h
    exact finalStatus_ok_sum n i st hinv
  | succ fuel ih =>
    intro i st hinv st2 hok
    simp only [decodeLoop] at hok
    by_cases hi : i < buf.length
    · rw [if_pos hi] at hok
      cases hE : execCmd n ev buf ext i st with
      | next st' i' =>
        rw [hE] at hok
        have hinv' := stepState_timenow_inv n ev buf ext i st hinv
        rw [hE] at hinv'
        simp only [stepState] at hinv'
        exact ih i' st' hinv' st2 hok
      | fatal st' =>
        rw [hE] at hok
        exact absurd hok (by simp)
    · rw [if_neg hi] at hok
      injection hok with h
      subst h
      exact finalStatus_ok_sum n i st hinv

/-- Over any run of the loop, `max_tonegen_found` never decreases. -/
lemma decodeLoop_max_le (n : Nat) (ev : Bool) (buf : List Nat) (ext : Nat → Nat) :
    ∀ (fuel i : Nat) (st : State),
      st.maxTonegenFound ≤ (stateOf (decodeLoop n ev buf ext fuel i st)).maxTonegenFound := by
  intro fuel
  induction fuel with
  | zero =>
    intro i st
    obtain ⟨s, _, _, _, _, hmax, _⟩ := finalStatus_spec n i st
    simp only [decodeLoop, stateOf]
    rw [hmax]
  | succ fuel ih =>
    intro i st
    simp only [decodeLoop]
    split
    · cases hE : execCmd n ev buf ext i st with
      | next st' i' =>
        have h1 := stepState_max_le n ev buf ext i st
        rw [hE] at h1
        simp only [stepState] at h1
        exact le_trans h1 (ih i' st')
      | fatal st' =>
        have h1 := stepState_max_le n ev buf ext i st
        rw [hE] at h1
        simp only [stepState] at h1
        simpa [stateOf] using h1
    · obtain ⟨s, _, _, _, _, hmax, _⟩ := finalStatus_spec n i st
      simp only [stateOf]
      rw [hmax]

/-- Over any run of the loop, every byte index ever read stays below
`buflen + 2` (the worst case is the volume operand of a note-on command
sitting at the last buffer index). -/
lemma decodeLoop_reads_bound (n : Nat) (ev : Bool) (buf : List Nat) (ext : Nat → Nat) :
    ∀ (fuel i : Nat) (st : State),
      (∀ r ∈ st.reads, r < buf.length + 2) →
      ∀ r ∈ (stateOf (decodeLoop n ev buf ext fuel i st)).reads, r < buf.length + 2 := by
  intro fuel
  induction fuel with
  | zero =>
    intro i st hst r hr
    obtain ⟨s, _, _, _, _, _, hreads⟩ := finalStatus_spec n i st
    simp only [decodeLoop, stateOf] at hr
    rw [hreads] at hr
    exact hst r hr
  | succ fuel ih =>
    intro i st hst
    simp only [decodeLoop]
    split
    · rename_i hi
      have hsub := stepState_reads_sub n ev buf ext i st
      cases hE : execCmd n ev buf ext i st with
      | next st' i' =>
        rw [hE] at hsub
        simp only [stepState] at hsub
        refine ih i' st' ?_
        intro r hr
        rcases hsub r hr with h | h | h | h
        · exact hst r h
        all_goals omega
      | fatal st' =>
        rw [hE] at hsub
        simp only [stepState] at hsub
        intro r hr
        simp only [stateOf] at hr
        rcases hsub r hr with h | h | h | h
        · exact hst r h
        all_goals omega
    · intro r hr
      obtain ⟨s, _, _, _, _, _, hreads⟩ := finalStatus_spec n i st
      simp only [stateOf] at hr
      rw [hreads] at hr
      exact hst r hr

/-! ### Arithmetic facts about the bit masks -/

lemma land_f0_eq_80 (b : Nat) (h1 : 0x80 ≤ b) (h2 : b < 0x90) :
    b &&& 0xF0 = 0x80 := by
  interval_cases b <;> rfl

lemma land_f0_eq_90 (b : Nat) (h1 : 0x90 ≤ b) (h2 : b < 0xA0) :
    b &&& 0xF0 = 0x90 := by
  interval_cases b <;> rfl

lemma land_0f_lt_16 (b : Nat) : b &&& 0x0F < 16 := by
  have h : b &&& 0x0F ≤ 0x0F := Nat.and_le_right
  omega

/-! ### The claims -/

/-- C1, counterexample: on the buffer `F0 00 64` the decode pass does not
stop at the `0xF0` byte: the two bytes after it are read and decoded as a
delay command, a non-terminal snapshot is emitted after the `0xF0`, and
the clock advances to 100 ms. -/
theorem c1_counterexample :
    readByte [0xF0, 0x00, 0x64] ext0 0 = 0xF0 ∧
    (stateOf (decodeFile defaultConfig [0xF0, 0x00, 0x64] ext0)).snapshots.length = 2 ∧
    (stateOf (decodeFile defaultConfig [0xF0, 0x00, 0x64] ext0)).timenow = 100 ∧
    (stateOf (decodeFile defaultConfig [0xF0, 0x00, 0x64] ext0)).reads = [0, 1, 2] := by
  decide

/-- C1 (amended): a `0xF0` command byte is skipped as a no-op: the
iteration leaves the state unchanged apart from recording the read, the
cursor advances by exactly one byte, and the loop continues decoding the
following bytes; decoding stops only at buffer exhaustion, so when `0xF0`
is the last byte only the terminal snapshot follows it. -/
theorem c1_endofscore_skipped (n : Nat) (ev : Bool) (buf : List Nat)
    (ext : Nat → Nat) (fuel i : Nat) (st : State) (hi : i < buf.length)
    (hb : readByte buf ext i = 0xF0) :
    execCmd n ev buf ext i st = .next (rd i st) (i+1) ∧
    decodeLoop n ev buf ext (fuel+1) i st =
      decodeLoop n ev buf ext fuel (i+1) (rd i st) := by
  have h1 := execCmd_f0_eq n ev buf ext i st hb
  refine ⟨h1, ?_⟩
  simp only [decodeLoop]
  rw [if_pos hi, h1]

/-- Witness for C1's theorem at the one-byte buffer `F0`. -/
theorem c1_witness :
    execCmd 6 false [0xF0] ext0 0 (initState 6 0) = .next (rd 0 (initState 6 0)) 1 ∧
    decodeLoop 6 false [0xF0] ext0 1 0 (initState 6 0) =
      decodeLoop 6 false [0xF0] ext0 0 1 (rd 0 (initState 6 0)) :=
  c1_endofscore_skipped 6 false [0xF0] ext0 0 0 (initState 6 0) (by decide) (by decide)

/-- C2, counterexample: on the buffer `80 00 0A` (a note-off for silent
generator 0, then a delay) the pass records the error at offset 0 but is
not fatal: it completes normally and emits two further snapshots. -/
theorem c2_counterexample :
    isOk (decodeFile defaultConfig [0x80, 0x00, 0x0A] ext0) = true ∧
    (stateOf (decodeFile defaultConfig [0x80, 0x00, 0x0A] ext0)).errors =
      [("tone generator not on", 0)] ∧
    (stateOf (decodeFile defaultConfig [0x80, 0x00, 0x0A] ext0)).snapshots.length = 2 ∧
    (stateOf (decodeFile defaultConfig [0x80, 0x00, 0x0A] ext0)).timenow = 10 := by
  decide

/-- C2 (amended): a note-off addressed to a generator whose note is SILENT
reports "tone generator not on" at the exact byte offset of the command,
but in V1.10 `file_error` does not abort: the iteration returns normally
and the loop continues at the next byte. -/
theorem c2_noteoff_silent_nonfatal (n : Nat) (ev : Bool) (buf : List Nat)
    (ext : Nat → Nat) (i : Nat) (st : State)
    (h1 : 0x80 ≤ readByte buf ext i) (h2 : readByte buf ext i < 0x90)
    (hsilent : st.genNote.getD (readByte buf ext i &&& 0x0F) 0 = SILENT) :
    ∃ st', execCmd n ev buf ext i st = .next st' (i+1) ∧
      st'.errors = st.errors ++ [("tone generator not on", i)] := by
  have hop := land_f0_eq_80 _ h1 h2
  have hstep := execCmd_noteOff_eq n ev buf ext i st (by omega) (by omega) (by omega) hop
  refine ⟨_, hstep, ?_⟩
  obtain ⟨_, _, _, _, _, _, herr, _⟩ :=
    noteOffStep_spec i (readByte buf ext i &&& 0x0F)
      (cmdStart (readByte buf ext i &&& 0x0F) (rd i st))
  rw [herr]
  simp only [cmdStart, rd]
  rw [if_pos hsilent]

/-- Witness for C2's theorem at the one-byte buffer `80`. -/
theorem c2_witness :
    ∃ st', execCmd 6 false [0x80] ext0 0 (initState 6 0) = .next st' 1 ∧
      st'.errors = (initState 6 0).errors ++ [("tone generator not on", 0)] :=
  c2_noteoff_silent_nonfatal 6 false [0x80] ext0 0 (initState 6 0)
    (by decide) (by decide) (by decide)

/-- C3, counterexample: on the one-byte buffer `01` (a delay high byte
whose low operand byte lies past the end) the pass does not fail — there
is no truncation error of any kind — and the decoder reads byte index 1,
which is not below the buffer length. -/
theorem c3_counterexample :
    isOk (decodeFile defaultConfig [0x01] ext0) = true ∧
    (stateOf (decodeFile defaultConfig [0x01] ext0)).errors = [] ∧
    1 ∈ (stateOf (decodeFile defaultConfig [0x01] ext0)).reads ∧
    ¬ (∀ r ∈ (stateOf (decodeFile defaultConfig [0x01] ext0)).reads,
        r < List.length [0x01]) := by
  decide

/-- C3 (amended): the code has no bounds check and no truncation error;
an operand expected past the end of the buffer is simply read from the
memory following it.  What does hold: every byte index the decode pass
reads is below `buflen + 2` (the worst case is the volume operand of a
note-on command at the last buffer index). -/
theorem c3_reads_bounded (cfg : Config) (buf : List Nat) (ext : Nat → Nat)
    (r : Nat) (hr : r ∈ (stateOf (decodeFile cfg buf ext)).reads) :
    r < buf.length + 2 := by
  have hbase : ∀ r2 ∈ (initState cfg.numTonegens (headerResult cfg buf).1).reads,
      r2 < buf.length + 2 := by
    intro r2 hr2
    simp [initState] at hr2
  exact decodeLoop_reads_bound cfg.numTonegens (headerResult cfg buf).2 buf ext
    (buf.length + 1) (headerResult cfg buf).1 _ hbase r hr

/-- Witness for C3's theorem at the one-byte buffer `01`. -/
theorem c3_witness :
    1 ∈ (stateOf (decodeFile defaultConfig [0x01] ext0)).reads ∧
    1 < List.length [0x01] + 2 :=
  ⟨by decide, c3_reads_bounded defaultConfig [0x01] ext0 1 (by decide)⟩

/-- C4, counterexample: on the one-byte buffer `E0` the pass completes
normally with no error of any kind — the byte does not fall into the
unknown-command branch (which would record "unknown command" and abort). -/
theorem c4_counterexample :
    isOk (decodeFile defaultConfig [0xE0] ext0) = true ∧
    (stateOf (decodeFile defaultConfig [0xE0] ext0)).errors = [] ∧
    (stateOf (decodeFile defaultConfig [0xE0] ext0)).snapshots.length = 1 := by
  decide

/-- C4 (amended): a `0xE0` command byte is excluded from the command
dispatch by `cmd != 0xf0 && cmd != 0xe0` and is silently skipped as a
one-byte no-op: no error is raised, the state is unchanged apart from the
recorded read, and the loop continues at the next byte. -/
theorem c4_repeat_skipped (n : Nat) (ev : Bool) (buf : List Nat)
    (ext : Nat → Nat) (fuel i : Nat) (st : State) (hi : i < buf.length)
    (hb : readByte buf ext i = 0xE0) :
    execCmd n ev buf ext i st = .next (rd i st) (i+1) ∧
    decodeLoop n ev buf ext (fuel+1) i st =
      decodeLoop n ev buf ext fuel (i+1) (rd i st) := by
  have h1 := execCmd_e0_eq n ev buf ext i st hb
  refine ⟨h1, ?_⟩
  simp only [decodeLoop]
  rw [if_pos hi, h1]

/-- Witness for C4's theorem at the one-byte buffer `E0`. -/
theorem c4_witness :
    execCmd 6 false [0xE0] ext0 0 (initState 6 0) = .next (rd 0 (initState 6 0)) 1 ∧
    decodeLoop 6 false [0xE0] ext0 1 0 (initState 6 0) =
      decodeLoop 6 false [0xE0] ext0 0 1 (rd 0 (initState 6 0)) :=
  c4_repeat_skipped 6 false [0xE0] ext0 0 0 (initState 6 0) (by decide) (by decide)

/-- C5: a buffer that begins with the header bytes `'P','t',6,0x80,0x00,4`
and is longer than the 6-byte header forces `expect_volume = true`
(bit 7 of flag byte 1), whatever the caller-supplied default was, and the
command loop starts at offset 6 from the freshly initialised state. -/
theorem c5_header_forces_volume (cfg : Config) (buf : List Nat) (ext : Nat → Nat)
    (hlen : 6 < buf.length) (hpre : buf.take 6 = [80, 116, 6, 0x80, 0x00, 4]) :
    headerResult cfg buf = (6, true) ∧
    decodeFile cfg buf ext =
      decodeLoop cfg.numTonegens true buf ext (buf.length + 1) 6
        (initState cfg.numTonegens 6) := by
  have hsplit : buf = [80, 116, 6, 0x80, 0x00, 4] ++ buf.drop 6 := by
    rw [← hpre]
    exact (List.take_append_drop 6 buf).symm
  have h0 : buf.getD 0 0 = 80 := by rw [hsplit]; rfl
  have h1 : buf.getD 1 0 = 116 := by rw [hsplit]; rfl
  have h2 : buf.getD 2 0 = 6 := by rw [hsplit]; rfl
  have h3 : buf.getD 3 0 = 0x80 := by rw [hsplit]; rfl
  have hh : headerResult cfg buf = (6, true) := by
    rw [headerResult, if_pos ⟨hlen, h0, h1⟩, h2, h3]
    rfl
  refine ⟨hh, ?_⟩
  simp only [decodeFile]
  rw [hh]

/-- Witness for C5's theorem at the buffer `Pt` header plus one byte. -/
theorem c5_witness :
    headerResult defaultConfig [80, 116, 6, 0x80, 0x00, 4, 0x90] = (6, true) ∧
    decodeFile defaultConfig [80, 116, 6, 0x80, 0x00, 4, 0x90] ext0 =
      decodeLoop defaultConfig.numTonegens true [80, 116, 6, 0x80, 0x00, 4, 0x90] ext0
        (List.length [80, 116, 6, 0x80, 0x00, 4, 0x90] + 1) 6
        (initState defaultConfig.numTonegens 6) :=
  c5_header_forces_volume defaultConfig [80, 116, 6, 0x80, 0x00, 4, 0x90] ext0
    (by decide) (by decide)

/-- C6: whenever the pass completes without the unknown-command abort —
in particular for every well-formed stream terminated by `EndOfScore` —
the final snapshot exists, carries `delay = 0`, and the sum of the `delay`
values of all emitted snapshots equals the `timenow` it records. -/
theorem c6_delay_sum (cfg : Config) (buf : List Nat) (ext : Nat → Nat)
    (h : isOk (decodeFile cfg buf ext) = true) :
    ∃ s, (stateOf (decodeFile cfg buf ext)).snapshots.getLast? = some s ∧
      snapDelaySum (stateOf (decodeFile cfg buf ext)).snapshots = s.timenow ∧
      s.delay = 0 := by
  cases hE : decodeFile cfg buf ext with
  | ok st2 =>
    have hE2 : decodeLoop cfg.numTonegens (headerResult cfg buf).2 buf ext
        (buf.length + 1) (headerResult cfg buf).1
        (initState cfg.numTonegens (headerResult cfg buf).1) = .ok st2 := hE
    simp only [stateOf]
    exact decodeLoop_ok_sum cfg.numTonegens (headerResult cfg buf).2 buf ext
      (buf.length + 1) (headerResult cfg buf).1 _ rfl st2 hE2
  | fatal st2 =>
    rw [hE] at h
    simp [isOk] at h

/-- Witness for C6's theorem at the worked-example stream of the protocol
documentation (`00 64 90 40 01 2C 80 F0`, whose total time is 400 ms). -/
theorem c6_witness :
    isOk (decodeFile defaultConfig [0x00, 0x64, 0x90, 0x40, 0x01, 0x2C, 0x80, 0xF0] ext0)
      = true ∧
    ∃ s, (stateOf (decodeFile defaultConfig
            [0x00, 0x64, 0x90, 0x40, 0x01, 0x2C, 0x80, 0xF0] ext0)).snapshots.getLast?
          = some s ∧
      snapDelaySum (stateOf (decodeFile defaultConfig
            [0x00, 0x64, 0x90, 0x40, 0x01, 0x2C, 0x80, 0xF0] ext0)).snapshots
          = s.timenow ∧
      s.delay = 0 :=
  ⟨by decide,
   c6_delay_sum defaultConfig [0x00, 0x64, 0x90, 0x40, 0x01, 0x2C, 0x80, 0xF0] ext0
     (by decide)⟩

/-- C7: processing a delay command increments `consecutive_delays` by one
exactly when no note/instrument command arrived since the previous delay
(`gotcommand` false, i.e. the two delays are adjacent), the snapshot the
second delay emits then carries the warning flag, and the step leaves
`gotcommand` false for the next delay. -/
theorem c7_consecutive_delays (n : Nat) (ev : Bool) (buf : List Nat)
    (ext : Nat → Nat) (i : Nat) (st : State)
    (hb : readByte buf ext i < 0x80) :
    ∃ st' s, execCmd n ev buf ext i st = .next st' (i+2) ∧
      st'.snapshots = st.snapshots ++ [s] ∧
      st'.consecutiveDelays = st.consecutiveDelays + (if st.gotcommand then 0 else 1) ∧
      s.warning = (st.warning || !st.gotcommand) ∧
      (st.gotcommand = false → s.warning = true) ∧
      st'.gotcommand = false := by
  have hstep := execCmd_delay_eq n ev buf ext i st hb
  obtain ⟨s, hsnap, hst, hsd, hsw, htime, hcons, hgot, _⟩ :=
    delayStep_spec n buf ext i (rd i st)
  refine ⟨_, s, hstep, hsnap, hcons, hsw, ?_, hgot⟩
  intro hg
  rw [hsw]
  show (st.warning || !st.gotcommand) = true
  rw [hg]
  simp

/-- Witness for C7's theorem: a delay arriving while `gotcommand` is
false (the state right after a previous delay). -/
theorem c7_witness :
    ∃ st' s, execCmd 6 false [0x00, 0x64] ext0 0
        { initState 6 0 with gotcommand := false } = .next st' 2 ∧
      st'.snapshots = ({ initState 6 0 with gotcommand := false } : State).snapshots ++ [s] ∧
      st'.consecutiveDelays =
        ({ initState 6 0 with gotcommand := false } : State).consecutiveDelays +
          (if ({ initState 6 0 with gotcommand := false } : State).gotcommand then 0 else 1) ∧
      s.warning = (({ initState 6 0 with gotcommand := false } : State).warning ||
        !({ initState 6 0 with gotcommand := false } : State).gotcommand) ∧
      (({ initState 6 0 with gotcommand := false } : State).gotcommand = false →
        s.warning = true) ∧
      st'.gotcommand = false :=
  c7_consecutive_delays 6 false [0x00, 0x64] ext0 0
    { initState 6 0 with gotcommand := false } (by decide)

/-- C8: a note-off followed in the same delay interval by a note-on for
the same generator (the generator had a note sounding, so the note-off
itself records no error) bumps `stopnotes_before_startnote` by exactly one
and raises no error at all; and every delay command resets the
just-stopped flags of all 16 generators. -/
theorem c8_stopnote_before_startnote :
    (∀ (n : Nat) (ev : Bool) (buf : List Nat) (ext : Nat → Nat) (i : Nat) (st : State),
      0x80 ≤ readByte buf ext i → readByte buf ext i < 0x90 →
      0x90 ≤ readByte buf ext (i+1) → readByte buf ext (i+1) < 0xA0 →
      readByte buf ext (i+1) &&& 0x0F = readByte buf ext i &&& 0x0F →
      st.genDidStopnote.length = 16 →
      st.genNote.getD (readByte buf ext i &&& 0x0F) 0 ≠ SILENT →
      ∃ st1 st2 i2, execCmd n ev buf ext i st = .next st1 (i+1) ∧
        execCmd n ev buf ext (i+1) st1 = .next st2 i2 ∧
        st2.stopnotesBeforeStartnote = st.stopnotesBeforeStartnote + 1 ∧
        st2.errors = st.errors) ∧
    (∀ (n : Nat) (ev : Bool) (buf : List Nat) (ext : Nat → Nat) (i : Nat) (st : State),
      readByte buf ext i < 0x80 →
      ∃ st', execCmd n ev buf ext i st = .next st' (i+2) ∧
        st'.genDidStopnote = List.replicate 16 false) := by
  constructor
  · intro n ev buf ext i st h1 h2 h3 h4 hsame hlen hnote
    have hop1 := land_f0_eq_80 _ h1 h2
    have hop2 := land_f0_eq_90 _ h3 h4
    have hglt : readByte buf ext i &&& 0x0F < 16 := land_0f_lt_16 _
    have hstep1 := execCmd_noteOff_eq n ev buf ext i st (by omega) (by omega) (by omega) hop1
    set g := readByte buf ext i &&& 0x0F with hgdef
    set st1 := noteOffStep i g (cmdStart g (rd i st)) with hst1def
    have hstep2 := execCmd_noteOn_eq n ev buf ext (i+1) st1 (by omega) (by omega) (by omega) hop2
    rw [hsame] at hstep2
    obtain ⟨_, _, _, _, _, hsp1, herr1, hgn1, hgd1⟩ :=
      noteOffStep_spec i g (cmdStart g (rd i st))
    obtain ⟨_, _, _, herr2, _, hsp2, _⟩ :=
      noteOnStep_spec n ev buf ext (i+1) g (cmdStart g (rd (i+1) st1))
    have herrs1 : st1.errors = st.errors := by
      rw [herr1]
      simp only [cmdStart, rd]
      rw [if_neg hnote]
      exact List.append_nil _
    have hget : st1.genDidStopnote.getD g false = true := by
      rw [hgd1]
      apply getD_set_self
      show g < st.genDidStopnote.length
      rw [hlen]
      exact hglt
    refine ⟨st1, _, _, hstep1, hstep2, ?_, ?_⟩
    · rw [hsp2]
      simp only [cmdStart, rd]
      rw [hget, hsp1]
      simp only [cmdStart, rd]
      rfl
    · rw [herr2]
      show st1.errors = st.errors
      exact herrs1
  · intro n ev buf ext i st hb
    have hstep := execCmd_delay_eq n ev buf ext i st hb
    obtain ⟨s, _, _, _, _, _, _, _, hds, _⟩ := delayStep_spec n buf ext i (rd i st)
    exact ⟨_, hstep, hds⟩

/-- Witness for C8's theorem: note-off then note-on on generator 0 (with
a note sounding on it), and a delay resetting the just-stopped flags. -/
theorem c8_witness :
    (∃ st1 st2 i2,
      execCmd 6 false [0x80, 0x90, 0x40] ext0 0
          { initState 6 0 with genNote := (initState 6 0).genNote.set 0 60 } = .next st1 1 ∧
      execCmd 6 false [0x80, 0x90, 0x40] ext0 1 st1 = .next st2 i2 ∧
      st2.stopnotesBeforeStartnote =
        ({ initState 6 0 with genNote := (initState 6 0).genNote.set 0 60 } :
          State).stopnotesBeforeStartnote + 1 ∧
      st2.errors =
        ({ initState 6 0 with genNote := (initState 6 0).genNote.set 0 60 } :
          State).errors) ∧
    (∃ st', execCmd 6 false [0x00, 0x64] ext0 0 (initState 6 0) = .next st' 2 ∧
      st'.genDidStopnote = List.replicate 16 false) :=
  ⟨c8_stopnote_before_startnote.1 6 false [0x80, 0x90, 0x40] ext0 0
      { initState 6 0 with genNote := (initState 6 0).genNote.set 0 60 }
      (by decide) (by decide) (by decide) (by decide) (by decide) (by decide) (by decide),
   c8_stopnote_before_startnote.2 6 false [0x00, 0x64] ext0 0 (initState 6 0) (by decide)⟩

/-- C9: every byte dispatched to the command branch (not a delay, not
`0xF0`, not `0xE0`) addresses generator `command_byte & 0x0F`, which is
always below 16, and `max_tonegen_found` becomes the maximum of its old
value and that index; moreover `max_tonegen_found` is non-decreasing over
any run of the decode loop, on any input. -/
theorem c9_generator_index :
    (∀ (n : Nat) (ev : Bool) (buf : List Nat) (ext : Nat → Nat) (i : Nat) (st : State),
      ¬ readByte buf ext i < 0x80 → readByte buf ext i ≠ 0xF0 →
      readByte buf ext i ≠ 0xE0 →
      (stepState (execCmd n ev buf ext i st)).maxTonegenFound =
        max st.maxTonegenFound (readByte buf ext i &&& 0x0F) ∧
      readByte buf ext i &&& 0x0F < 16) ∧
    (∀ (n : Nat) (ev : Bool) (buf : List Nat) (ext : Nat → Nat) (fuel i : Nat) (st : State),
      st.maxTonegenFound ≤ (stateOf (decodeLoop n ev buf ext fuel i st)).maxTonegenFound) := by
  constructor
  · intro n ev buf ext i st hb0 hbf hbe
    refine ⟨?_, land_0f_lt_16 _⟩
    simp only [execCmd]
    rw [if_neg hb0, if_neg hbf, if_neg hbe]
    split_ifs
    · obtain ⟨_, _, hmax, _⟩ :=
        noteOnStep_spec n ev buf ext i (readByte buf ext i &&& 0x0F)
          (cmdStart (readByte buf ext i &&& 0x0F) (rd i st))
      simp only [stepState]
      rw [hmax]
      simp only [cmdStart, rd]
      split <;> omega
    · obtain ⟨_, _, hmax, _⟩ :=
        noteOffStep_spec i (readByte buf ext i &&& 0x0F)
          (cmdStart (readByte buf ext i &&& 0x0F) (rd i st))
      simp only [stepState]
      rw [hmax]
      simp only [cmdStart, rd]
      split <;> omega
    · obtain ⟨_, _, hmax, _⟩ :=
        instrStep_spec buf ext i (readByte buf ext i &&& 0x0F)
          (cmdStart (readByte buf ext i &&& 0x0F) (rd i st))
      simp only [stepState]
      rw [hmax]
      simp only [cmdStart, rd]
      split <;> omega
    · simp only [stepState, cmdStart, rd]
      split <;> omega
  · intro n ev buf ext fuel i st
    exact decodeLoop_max_le n ev buf ext fuel i st

/-- Witness for C9's theorem: the note-on byte `0x93` addresses
generator 3, and a short run of the loop keeps the maximum monotone. -/
theorem c9_witness :
    ((stepState (execCmd 6 false [0x93, 0x40] ext0 0 (initState 6 0))).maxTonegenFound =
      max (initState 6 0).maxTonegenFound (readByte [0x93, 0x40] ext0 0 &&& 0x0F) ∧
     readByte [0x93, 0x40] ext0 0 &&& 0x0F < 16) ∧
    (initState 6 0).maxTonegenFound ≤
      (stateOf (decodeLoop 6 false [0x93, 0x40] ext0 3 0 (initState 6 0))).maxTonegenFound :=
  ⟨c9_generator_index.1 6 false [0x93, 0x40] ext0 0 (initState 6 0)
      (by decide) (by decide) (by decide),
   c9_generator_index.2 6 false [0x93, 0x40] ext0 3 0 (initState 6 0)⟩

/-- C10: header detection requires `buflen > 6` strictly; a buffer of
exactly 6 bytes beginning with `'P','t'` is not treated as a header, so
the command loop starts at offset 0 with the caller-supplied
`expect_volume` default. -/
theorem c10_exact_header_length (cfg : Config) (buf : List Nat) (ext : Nat → Nat)
    (hlen : buf.length = 6) (h0 : buf.getD 0 0 = 80) (h1 : buf.getD 1 0 = 116) :
    headerResult cfg buf = (0, cfg.expectVolume) ∧
    decodeFile cfg buf ext =
      decodeLoop cfg.numTonegens cfg.expectVolume buf ext (buf.length + 1) 0
        (initState cfg.numTonegens 0) := by
  have hh : headerResult cfg buf = (0, cfg.expectVolume) := by
    rw [headerResult, if_neg]
    rintro ⟨hc, -⟩
    omega
  refine ⟨hh, ?_⟩
  simp only [decodeFile]
  rw [hh]

/-- Witness for C10's theorem: the 6-byte buffer that consists of exactly
the header bytes of C5 and nothing else. -/
theorem c10_witness :
    headerResult { expectVolume := true, numTonegens := 6 }
        [80, 116, 6, 0x80, 0x00, 4] = (0, true) ∧
    decodeFile { expectVolume := true, numTonegens := 6 }
        [80, 116, 6, 0x80, 0x00, 4] ext0 =
      decodeLoop 6 true [80, 116, 6, 0x80, 0x00, 4] ext0
        (List.length [80, 116, 6, 0x80, 0x00, 4] + 1) 0 (initState 6 0) :=
  c10_exact_header_length { expectVolume := true, numTonegens := 6 }
    [80, 116, 6, 0x80, 0x00, 4] ext0 (by decide) (by decide) (by decide)

end Miditones
